import Mathlib

set_option maxRecDepth 10000

deriving instance DecidableEq for Except

/-!
Shallow embedding of the SecureStego core (src/js/steganography.js,
src/js/crypto.js, src/js/validation.js, src/js/app.js) and proofs about it.

Bytes are modelled as `Nat` (values produced by `Uint8Array` are < 256; where
a fact needs that bound it is an explicit hypothesis).  A pixel buffer is the
flat RGBA byte list `imageData.data` (stride 4: R,G,B,A per pixel).  JavaScript
32-bit signed arithmetic is made explicit where it occurs (`bytesToNumber`).
-/

namespace SecureStego

/-! ## StegoCodec — src/js/steganography.js -/

/-- `numberToBytes` (steganography.js:20-27): big-endian 4-byte encoding via
`(num >> k) & 0xFF`.  The JS shifts are 32-bit; for the values used
(0 ≤ num < 2^31, here always 92) they agree with the `Nat` shifts. -/
def numberToBytes (num : Nat) : List Nat :=
  [(num >>> 24) &&& 0xFF, (num >>> 16) &&& 0xFF, (num >>> 8) &&& 0xFF, num &&& 0xFF]

/-- Reinterpret an unsigned 32-bit value as a JS signed 32-bit integer. -/
def toSigned32 (u : Nat) : Int :=
  if u < 2 ^ 31 then (u : Int) else (u : Int) - 2 ^ 32

/-- `bytesToNumber` (steganography.js:34-36):
`(bytes[0] << 24) | (bytes[1] << 16) | (bytes[2] << 8) | bytes[3]`.
JS `<<` and `|` operate on signed 32-bit integers; that is the bitwise-or of
the 32-bit patterns, reinterpreted signed, which is what this computes. -/
def bytesToNumber (bytes : List Nat) : Int :=
  toSigned32 ((((bytes.getD 0 0 <<< 24) ||| (bytes.getD 1 0 <<< 16)) |||
      (bytes.getD 2 0 <<< 8)) ||| bytes.getD 3 0)

/-- One LSB write (steganography.js:92): `(pixel & 0xFE) | bit`. -/
def setLSB (p : Nat) (b : Bool) : Nat :=
  (p &&& 0xFE) ||| (if b then 1 else 0)

/-- The bits of one payload byte, most significant first
(steganography.js:89: `(dataByte >> (7 - bitIndex)) & 1` for bitIndex 0..7). -/
def byteToBits (b : Nat) : List Bool :=
  [b.testBit 7, b.testBit 6, b.testBit 5, b.testBit 4,
   b.testBit 3, b.testBit 2, b.testBit 1, b.testBit 0]

/-- The full payload bit stream: bytes in array order, msb-first in each byte. -/
def bytesToBits : List Nat → List Bool
  | [] => []
  | b :: rest => byteToBits b ++ bytesToBits rest

/-- Reassemble one byte from up to 8 bits, msb-first
(steganography.js:134: `allBytes[dataIndex] |= bit << (7 - bitIndex)`). -/
def bitsToByte (bs : List Bool) : Nat :=
  bs.foldl (fun acc bit => acc * 2 + (if bit then 1 else 0)) 0

/-- Group a bit stream into bytes of 8 bits each, msb-first. -/
def bitsToBytes : List Bool → List Nat
  | b0 :: b1 :: b2 :: b3 :: b4 :: b5 :: b6 :: b7 :: rest =>
      bitsToByte [b0, b1, b2, b3, b4, b5, b6, b7] :: bitsToBytes rest
  | _ => []

/-- The embedding loop (steganography.js:79-101): raster order over pixels
(stride 4), writing the bit stream into the LSB of the R, G, B channels and
skipping the alpha channel; stops when the bits are exhausted.  The cases with
fewer than 4 trailing bytes mirror the JS behaviour on a truncated buffer
(writes past the end of a `Uint8Array` are silently dropped); for a real
`ImageData` buffer the length is divisible by 4 and they are unreachable. -/
def embedLoop : List Nat → List Bool → List Nat
  | ps, [] => ps
  | r :: g :: b :: a :: rest, b1 :: b2 :: b3 :: more =>
      setLSB r b1 :: setLSB g b2 :: setLSB b b3 :: a :: embedLoop rest more
  | r :: g :: b :: a :: rest, [b1, b2] =>
      setLSB r b1 :: setLSB g b2 :: b :: a :: rest
  | r :: g :: b :: a :: rest, [b1] =>
      setLSB r b1 :: g :: b :: a :: rest
  | [r, g, b], b1 :: b2 :: b3 :: _ => [setLSB r b1, setLSB g b2, setLSB b b3]
  | [r, g, b], [b1, b2] => [setLSB r b1, setLSB g b2, b]
  | [r, g, b], [b1] => [setLSB r b1, g, b]
  | [r, g], b1 :: b2 :: _ => [setLSB r b1, setLSB g b2]
  | [r, g], [b1] => [setLSB r b1, g]
  | [r], b1 :: _ => [setLSB r b1]
  | [], _ => []

/-- The extraction bit stream (steganography.js:130-141): LSBs of the R, G, B
channels in raster order, skipping alpha. -/
def lsbStream : List Nat → List Bool
  | r :: g :: b :: _ :: rest => r.testBit 0 :: g.testBit 0 :: b.testBit 0 :: lsbStream rest
  | [r, g, b] => [r.testBit 0, g.testBit 0, b.testBit 0]
  | [r, g] => [r.testBit 0, g.testBit 0]
  | [r] => [r.testBit 0]
  | [] => []

/-- `Uint8Array.prototype.set`: overlay `src` on `arr` at offset `off`
(in the source always called with `off + src.length ≤ arr.length`). -/
def setAt (arr src : List Nat) (off : Nat) : List Nat :=
  arr.take off ++ src ++ arr.drop (off + src.length)

/-- Assembly of `dataToEmbed` (steganography.js:54-68): a zeroed 96-byte array
receiving the 4-byte header (constant 92), then salt at 4, iv at 20,
keyBytes at 32, hmac at 64. -/
def assembleData (salt iv hmac keyBytes : List Nat) : List Nat :=
  let totalDataSize := 16 + 12 + 32 + 32
  let base := List.replicate (4 + totalDataSize) 0
  let d0 := setAt base (numberToBytes totalDataSize) 0
  let d1 := setAt d0 salt 4
  let d2 := setAt d1 iv 20
  let d3 := setAt d2 keyBytes 32
  setAt d3 hmac 64

/-- Result of an embed call: the pixel buffer as left by the call, plus the
error thrown, if any (the JS wrapper rethrows with this message,
steganography.js:107-110). -/
structure EmbedResult where
  pixels : List Nat
  error : Option String
deriving DecidableEq

/-- `embedDataInImage` (steganography.js:47-111).  The capacity check
(`dataToEmbed.length * 8 / 3 > pixels.length / 4`, lines 70-76) runs before
any write; on failure the buffer is returned untouched.  The JS comparison is
on exact floats: `96*8/3 = 256` exactly and `pixels.length/4` is exact for a
stride-4 buffer, so `Nat` division is faithful. -/
def embedDataInImage (pixels salt iv hmac keyBytes : List Nat) : EmbedResult :=
  let dataToEmbed := assembleData salt iv hmac keyBytes
  let requiredPixels := dataToEmbed.length * 8 / 3
  let availablePixels := pixels.length / 4
  if availablePixels < requiredPixels then
    ⟨pixels, some "Failed to embed data in image: Image is too small to embed the encryption data"⟩
  else
    ⟨embedLoop pixels (bytesToBits dataToEmbed), none⟩

/-- Pad a bit list with `false` up to `n` bits: `allBytes` starts zeroed and
only collected bits are or-ed in, so missing trailing bits read as 0. -/
def padBitsTo (bits : List Bool) (n : Nat) : List Bool :=
  bits ++ List.replicate (n - bits.length) false

/-- The 96 recovered bytes (steganography.js:124-141): the first
`(4+92)*8` LSBs of the RGB stream, grouped msb-first into bytes; absent bits
(buffer too small) leave the corresponding `allBytes` bits at 0. -/
def extractAllBytes (pixels : List Nat) : List Nat :=
  bitsToBytes (padBitsTo ((lsbStream pixels).take ((4 + 92) * 8)) ((4 + 92) * 8))

/-- The record returned by `extractDataFromImage` (steganography.js:159). -/
structure ExtractedData where
  salt : List Nat
  iv : List Nat
  keyBytes : List Nat
  hmac : List Nat
deriving DecidableEq

/-- `extractDataFromImage` (steganography.js:118-164): recover the 96 bytes,
decode the first 4 as a big-endian length, fail unless it equals 92, then
slice salt[4:20), iv[20:32), keyBytes[32:64), hmac[64:96). -/
def extractDataFromImage (pixels : List Nat) : Except String ExtractedData :=
  let allBytes := extractAllBytes pixels
  let dataLength := bytesToNumber (allBytes.take 4)
  if dataLength ≠ (92 : Int) then
    Except.error "Failed to extract data from image: Invalid data length - image may not contain valid encryption data"
  else
    Except.ok ⟨(allBytes.drop 4).take 16, (allBytes.drop 20).take 12,
               (allBytes.drop 32).take 32, (allBytes.drop 64).take 32⟩

/-- `validateImageCapacity` (steganography.js:239-245):
`width*height ≥ ceil(96*8/3)`. -/
def validateImageCapacity (width height : Nat) : Bool :=
  let totalPixels := width * height
  let totalDataSize := 4 + 16 + 12 + 32 + 32
  let requiredPixels := (totalDataSize * 8 + 2) / 3
  requiredPixels ≤ totalPixels

/-! ## Cryptographic pipeline — src/js/crypto.js

The repo calls the browser Web Crypto API (`crypto.subtle`) for PBKDF2,
AES-GCM and HMAC-SHA256.  Those primitives are not part of the repository;
they are modelled as an abstract parameter bundle, and the properties the
spec assigns them (AEAD decryption inverts encryption under the same key and
iv) appear as explicit hypotheses where a claim needs them.  A `CryptoKey` is
identified with its raw exported bytes (the key is created `extractable` and
`exportKey`/`importKey` round it through raw bytes, crypto.js:695-749). -/

/-- Modelled from the spec: the Web Crypto primitives used by crypto.js
(PBKDF2-HMAC key derivation, an AEAD cipher keyed by 256-bit keys and 12-byte
ivs producing ciphertext with appended 128-bit tag, and a 32-byte keyed
digest).  `deriveBits iterations hash keyLength pin salt` returns the raw
derived key bytes; `aeadDecrypt` returns `none` when the tag does not verify. -/
structure CryptoPrimitives where
  deriveBits : Nat → String → Nat → String → List Nat → List Nat
  aeadEncrypt : List Nat → List Nat → List Nat → List Nat
  aeadDecrypt : List Nat → List Nat → List Nat → Option (List Nat)
  hmacSHA256 : List Nat → List Nat → List Nat

/-- `PBKDF2_ITERATIONS` (crypto.js:657). -/
def PBKDF2_ITERATIONS : Nat := 100000

/-- `KEY_LENGTH` in bits (crypto.js:660). -/
def KEY_LENGTH : Nat := 256

/-- `deriveKeyFromPIN` (crypto.js:679-713): PBKDF2 with the pin as password,
the given salt, 100000 iterations, SHA-256, to a 256-bit AES-GCM key. -/
def deriveKeyFromPIN (prims : CryptoPrimitives) (pin : String) (salt : List Nat) : List Nat :=
  prims.deriveBits PBKDF2_ITERATIONS "SHA-256" KEY_LENGTH pin salt

/-- `encryptData` (crypto.js:758-774): AES-GCM encrypt, 128-bit tag appended. -/
def encryptData (prims : CryptoPrimitives) (data key iv : List Nat) : List Nat :=
  prims.aeadEncrypt data key iv

/-- `decryptData` (crypto.js:783-799): AES-GCM decrypt; a failed tag check
throws the wrong-PIN-or-corrupted message. -/
def decryptData (prims : CryptoPrimitives) (encryptedData key iv : List Nat) :
    Except String (List Nat) :=
  match prims.aeadDecrypt encryptedData key iv with
  | some pt => Except.ok pt
  | none => Except.error "Decryption failed - incorrect PIN or corrupted data"

/-- `computeHMAC` (crypto.js:807-831): HMAC-SHA256 over `data` keyed with the
raw bytes of the derived key. -/
def computeHMAC (prims : CryptoPrimitives) (data key : List Nat) : List Nat :=
  prims.hmacSHA256 data key

/-- `verifyHMAC` (crypto.js:840-865): recompute and compare
(`crypto.subtle.verify` semantics). -/
def verifyHMAC (prims : CryptoPrimitives) (data signature key : List Nat) : Bool :=
  decide (prims.hmacSHA256 data key = signature)

/-- The value returned by `encryptFile` (crypto.js:901-907). -/
structure EncryptResult where
  encrypted : List Nat
  salt : List Nat
  iv : List Nat
  key : List Nat
  hmac : List Nat
deriving DecidableEq

/-- `encryptFile` (crypto.js:874-912).  The fresh random `salt` (16 bytes) and
`iv` (12 bytes) drawn by `generateRandomBytes` are passed in as arguments
standing for that draw.  Derive key from pin, AEAD-encrypt the file bytes,
HMAC the ciphertext (never the plaintext), return all parts. -/
def encryptFile (prims : CryptoPrimitives) (fileData : List Nat) (pin : String)
    (salt iv : List Nat) : EncryptResult :=
  let key := deriveKeyFromPIN prims pin salt
  let encryptedData := encryptData prims fileData key iv
  let hmac := computeHMAC prims encryptedData key
  { encrypted := encryptedData, salt := salt, iv := iv, key := key, hmac := hmac }

/-- Observable calls made by `decryptFile`, in order, for sequencing claims. -/
inductive DecStep where
  | derivedKey : String → List Nat → DecStep
  | macChecked : List Nat → Bool → DecStep
  | decryptInvoked : List Nat → DecStep
deriving DecidableEq

/-- `decryptFile` (crypto.js:924-955): derive key from pin and extracted salt,
verify the HMAC over the ciphertext, and only if it verifies call the AEAD
decrypt with the extracted iv.  The surrounding catch rethrows any inner error
with the `Failed to decrypt file: ` prefix (crypto.js:951-954).  Alongside the
result, the trace of primitive invocations is returned in call order. -/
def decryptFile (prims : CryptoPrimitives) (encryptedData : List Nat) (pin : String)
    (salt iv expectedHMAC : List Nat) : Except String (List Nat) × List DecStep :=
  let key := deriveKeyFromPIN prims pin salt
  if verifyHMAC prims encryptedData expectedHMAC key then
    match prims.aeadDecrypt encryptedData key iv with
    | some pt =>
        (Except.ok pt,
         [DecStep.derivedKey pin salt, DecStep.macChecked encryptedData true,
          DecStep.decryptInvoked encryptedData])
    | none =>
        (Except.error "Failed to decrypt file: Decryption failed - incorrect PIN or corrupted data",
         [DecStep.derivedKey pin salt, DecStep.macChecked encryptedData true,
          DecStep.decryptInvoked encryptedData])
  else
    (Except.error "Failed to decrypt file: HMAC verification failed - data may be corrupted",
     [DecStep.derivedKey pin salt, DecStep.macChecked encryptedData false])

/-- List-of-chars version of JS `String.prototype.startsWith`. -/
def startsWithL : List Char → List Char → Bool
  | [], _ => true
  | _ :: _, [] => false
  | a :: as, b :: bs => a == b && startsWithL as bs

/-- List-of-chars version of JS `String.prototype.includes`. -/
def containsSub (needle : List Char) : List Char → Bool
  | [] => startsWithL needle []
  | c :: rest => startsWithL needle (c :: rest) || containsSub needle rest

/-- JS `message.toLowerCase()` on the character list. -/
def lowerChars (s : String) : List Char :=
  s.data.map Char.toLower

/-- `getCryptoErrorMessage` (crypto.js:989-1006): collapse every crypto error
into a user-facing message by keyword on the lowercased message. -/
def getCryptoErrorMessage (message : String) : String :=
  let m := lowerChars message
  if containsSub "secure context".data m then
    "This app requires HTTPS. Please access via https:// or localhost"
  else if containsSub "not supported".data m then
    "Your browser does not support the required encryption features"
  else if containsSub "decrypt".data m then
    "Decryption failed - incorrect PIN or corrupted files"
  else if containsSub "hmac".data m then
    "File integrity check failed - the file may have been tampered with"
  else
    "An encryption error occurred. Please try again."

/-! ## Validation — src/js/validation.js -/

/-- The `{valid, error, warning}` object returned by the validators. -/
structure ValidationResult where
  valid : Bool
  error : Option String
  warning : Option String
deriving DecidableEq

/-- The weak-PIN list (validation.js:31-36). -/
def weakPatterns : List String :=
  ["000000", "111111", "222222", "333333", "444444",
   "555555", "666666", "777777", "888888", "999999",
   "123456", "654321", "012345", "543210",
   "111222", "222333", "333444"]

/-- `validatePIN` (validation.js:13-46): reject empty (`!pin`), non-6-length,
non-all-digit pins; weak pins validate with a warning.  The regex
`/^\d{6}$/` after the length check amounts to all characters being ASCII
decimal digits. -/
def validatePIN (pin : String) : ValidationResult :=
  if pin.data.length = 0 then
    ⟨false, some "PIN is required", none⟩
  else if pin.data.length ≠ 6 then
    ⟨false, some "PIN must be exactly 6 digits", none⟩
  else if ¬ pin.data.all Char.isDigit then
    ⟨false, some "PIN must contain only numbers", none⟩
  else if weakPatterns.contains pin then
    ⟨true, none, some "This PIN is weak. Consider using a more random combination."⟩
  else
    ⟨true, none, none⟩

/-- The predicate in the spec's words: exactly 6 ASCII decimal digits. -/
def isSixDigitPIN (pin : String) : Bool :=
  pin.data.length == 6 && pin.data.all Char.isDigit

/-- The key-derivation pipeline stage: the PIN gate that the handlers run
(`validateEncryptionInputs`/`validateDecryptionInputs` call `validatePIN` and
throw before any crypto starts, app.js:339-342 and 411-414) composed with
`deriveKeyFromPIN`, restricted to the pin input. -/
def deriveStage (prims : CryptoPrimitives) (pin : String) (salt : List Nat) :
    Except String (List Nat) :=
  let v := validatePIN pin
  if v.valid then Except.ok (deriveKeyFromPIN prims pin salt)
  else Except.error (v.error.getD "")

/-! ## Encrypt handler — src/js/app.js -/

/-- `clearSensitiveData` (crypto.js:961-972): `data.fill(0)`. -/
def clearSensitiveData (data : List Nat) : List Nat :=
  List.replicate data.length 0

/-- The data-flow core of `handleEncrypt` (app.js:329-395), tracking the final
contents of the exported `keyBytes` buffer when the handler exits
(`none` when the buffer was never created).  Validate inputs (file non-empty,
pin valid); encrypt; export the raw key; embed salt/iv/hmac/keyBytes into the
cover buffer; on success convert and save, then `clearSensitiveData(keyBytes)`
(app.js:383).  An error thrown by the embed jumps to the catch block
(app.js:385-389), which shows the collapsed message and does not touch
`keyBytes`. -/
def handleEncryptCore (prims : CryptoPrimitives) (fileData : List Nat) (pin : String)
    (salt iv coverPixels : List Nat) : Except String Unit × Option (List Nat) :=
  if ¬ ((validatePIN pin).valid && !fileData.isEmpty) then
    (Except.error "validation failed", none)
  else
    let encryptResult := encryptFile prims fileData pin salt iv
    let keyBytes := encryptResult.key
    let er := embedDataInImage coverPixels encryptResult.salt encryptResult.iv
        encryptResult.hmac keyBytes
    match er.error with
    | some e => (Except.error e, some keyBytes)
    | none => (Except.ok (), some (clearSensitiveData keyBytes))

/-- A concrete primitive bundle for witnesses: derivation yields 32 bytes of 7,
the AEAD is the identity with an empty tag, the MAC is 32 zero bytes. -/
def prims0 : CryptoPrimitives where
  deriveBits := fun _ _ _ _ _ => List.replicate 32 7
  aeadEncrypt := fun p _ _ => p
  aeadDecrypt := fun c _ _ => some c
  hmacSHA256 := fun _ _ => List.replicate 32 0

/-! ## Lemmas about the codec -/

theorem setAt_eq (arr pre mid post src : List Nat) (off : Nat)
    (harr : arr = pre ++ (mid ++ post)) (hoff : off = pre.length)
    (hlen : src.length = mid.length) :
    setAt arr src off = pre ++ (src ++ post) := by
  subst harr hoff
  have h1 : (pre ++ (mid ++ post)).take pre.length = pre := List.take_left' rfl
  have h2 : (pre ++ (mid ++ post)).drop (pre.length + src.length) = post := by
    rw [hlen, ← List.append_assoc]
    exact List.drop_left' (by simp)
  rw [setAt, h1, h2, List.append_assoc]

theorem assembleData_eq (salt iv hmac keyBytes : List Nat)
    (hs : salt.length = 16) (hi : iv.length = 12)
    (hk : keyBytes.length = 32) (hh : hmac.length = 32) :
    assembleData salt iv hmac keyBytes =
      [0, 0, 0, 92] ++ (salt ++ (iv ++ (keyBytes ++ hmac))) := by
  simp only [assembleData]
  have hnb : numberToBytes (16 + 12 + 32 + 32) = [0, 0, 0, 92] := by decide
  rw [setAt_eq _ [] (List.replicate 4 0) (List.replicate 92 0) _ 0
      (by decide) (by decide) (by simp [numberToBytes])]
  rw [hnb, List.nil_append]
  rw [setAt_eq _ [0, 0, 0, 92] (List.replicate 16 0) (List.replicate 76 0) _ 4
      (by simp [← List.replicate_add]) (by decide) (by simp [hs])]
  rw [setAt_eq _ ([0, 0, 0, 92] ++ salt) (List.replicate 12 0) (List.replicate 64 0) _ 20
      (by simp [← List.replicate_add]) (by simp [hs]) (by simp [hi])]
  rw [setAt_eq _ (([0, 0, 0, 92] ++ salt) ++ iv) (List.replicate 32 0) (List.replicate 32 0) _ 32
      (by simp [← List.replicate_add]) (by simp [hs, hi]) (by simp [hk])]
  rw [setAt_eq _ ((([0, 0, 0, 92] ++ salt) ++ iv) ++ keyBytes) (List.replicate 32 0) [] _ 64
      (by simp) (by simp [hs, hi, hk]) (by simp [hh])]
  simp

theorem assembleData_length (salt iv hmac keyBytes : List Nat)
    (hs : salt.length = 16) (hi : iv.length = 12)
    (hk : keyBytes.length = 32) (hh : hmac.length = 32) :
    (assembleData salt iv hmac keyBytes).length = 96 := by
  rw [assembleData_eq salt iv hmac keyBytes hs hi hk hh]
  simp [hs, hi, hk, hh]

theorem setLSB_testBit_zero (p : Nat) (b : Bool) : (setLSB p b).testBit 0 = b := by
  cases b <;> simp [setLSB, Nat.testBit_lor, Nat.testBit_land]

theorem setLSB_div_two : ∀ p : Nat, p < 256 → ∀ b : Bool, setLSB p b / 2 = p / 2 := by
  decide

theorem bitsToByte_byteToBits : ∀ b : Nat, b < 256 → bitsToByte (byteToBits b) = b := by
  decide

theorem bitsToByte8_lt : ∀ b0 b1 b2 b3 b4 b5 b6 b7 : Bool,
    bitsToByte [b0, b1, b2, b3, b4, b5, b6, b7] < 256 := by
  decide

theorem bytesToBits_length (l : List Nat) : (bytesToBits l).length = 8 * l.length := by
  induction l with
  | nil => rfl
  | cons b rest ih => simp [bytesToBits, byteToBits, ih]; omega

theorem bitsToBytes_bytesToBits (l : List Nat) (h : ∀ x ∈ l, x < 256) :
    bitsToBytes (bytesToBits l) = l := by
  induction l with
  | nil => rfl
  | cons b rest ih =>
      have hb : b < 256 := h b (by simp)
      have hrest := ih (fun x hx => h x (by simp [hx]))
      show bitsToByte (byteToBits b) :: bitsToBytes (bytesToBits rest) = b :: rest
      rw [bitsToByte_byteToBits b hb, hrest]

theorem bitsToBytes_short (l : List Bool) (h : l.length < 8) : bitsToBytes l = [] := by
  rcases l with _ | ⟨a, _ | ⟨b, _ | ⟨c, _ | ⟨d, _ | ⟨e, _ | ⟨f, _ | ⟨g, _ | ⟨i, tail⟩⟩⟩⟩⟩⟩⟩⟩ <;>
    first
      | rfl
      | (simp only [List.length_cons] at h; omega)

theorem no_eight_head_short (l : List Bool)
    (h1 : ∀ (b0 b1 b2 b3 b4 b5 b6 b7 : Bool) (rest : List Bool),
      l = b0 :: b1 :: b2 :: b3 :: b4 :: b5 :: b6 :: b7 :: rest → False) :
    l.length < 8 := by
  rcases l with _ | ⟨a, _ | ⟨b, _ | ⟨c, _ | ⟨d, _ | ⟨e, _ | ⟨f, _ | ⟨g, _ | ⟨i, tail⟩⟩⟩⟩⟩⟩⟩⟩ <;>
    first
      | exact absurd rfl (h1 a b c d e f g i tail)
      | simp

theorem bitsToBytes_mem_lt (l : List Bool) : ∀ x ∈ bitsToBytes l, x < 256 := by
  induction l using bitsToBytes.induct with
  | case1 b0 b1 b2 b3 b4 b5 b6 b7 rest ih =>
      intro x hx
      rw [bitsToBytes] at hx
      rcases List.mem_cons.mp hx with h | h
      · subst h; exact bitsToByte8_lt b0 b1 b2 b3 b4 b5 b6 b7
      · exact ih x h
  | case2 l h1 =>
      intro x hx
      rw [bitsToBytes_short l (no_eight_head_short l h1)] at hx
      simp at hx

theorem bitsToBytes_length (l : List Bool) : (bitsToBytes l).length = l.length / 8 := by
  induction l using bitsToBytes.induct with
  | case1 b0 b1 b2 b3 b4 b5 b6 b7 rest ih =>
      rw [bitsToBytes]
      simp only [List.length_cons, ih]
      omega
  | case2 l h1 =>
      have hlt := no_eight_head_short l h1
      rw [bitsToBytes_short l hlt]
      simp only [List.length_nil]
      omega

theorem embedLoop_length (ps : List Nat) (bs : List Bool) :
    (embedLoop ps bs).length = ps.length := by
  induction ps, bs using embedLoop.induct <;> simp [embedLoop, *]

theorem lsbStream_length (ps : List Nat) :
    ps.length % 4 = 0 → (lsbStream ps).length = 3 * (ps.length / 4) := by
  induction ps using lsbStream.induct <;> intro h4 <;> simp_all [lsbStream] <;> omega

theorem lsbStream_embedLoop (ps : List Nat) (bs : List Bool) :
    ps.length % 4 = 0 → bs.length ≤ 3 * (ps.length / 4) →
    (lsbStream (embedLoop ps bs)).take bs.length = bs := by
  induction ps, bs using embedLoop.induct with
  | case1 ps => intro _ _; simp
  | case2 r g b a rest b1 b2 b3 more ih =>
      intro h4 hcap
      have h4' : rest.length % 4 = 0 := by simp at h4; omega
      have hcap' : more.length ≤ 3 * (rest.length / 4) := by
        simp only [List.length_cons] at hcap; omega
      have key := ih h4' hcap'
      show (setLSB r b1).testBit 0 :: (setLSB g b2).testBit 0 :: (setLSB b b3).testBit 0 ::
          (lsbStream (embedLoop rest more)).take more.length = b1 :: b2 :: b3 :: more
      rw [setLSB_testBit_zero, setLSB_testBit_zero, setLSB_testBit_zero, key]
  | case3 r g b a rest b1 b2 =>
      intro _ _
      show [(setLSB r b1).testBit 0, (setLSB g b2).testBit 0] = [b1, b2]
      rw [setLSB_testBit_zero, setLSB_testBit_zero]
  | case4 r g b a rest b1 =>
      intro _ _
      show [(setLSB r b1).testBit 0] = [b1]
      rw [setLSB_testBit_zero]
  | case5 r g b b1 b2 b3 tail => intro h4 _; simp at h4
  | case6 r g b b1 b2 => intro h4 _; simp at h4
  | case7 r g b b1 => intro h4 _; simp at h4
  | case8 r g b1 b2 tail => intro h4 _; simp at h4
  | case9 r g b1 => intro h4 _; simp at h4
  | case10 r b1 tail => intro h4 _; simp at h4
  | case11 x hx =>
      intro _ hcap
      simp at hcap
      exact absurd hcap hx

theorem embedLoop_getD_alpha (ps : List Nat) (bs : List Bool) :
    ps.length % 4 = 0 → ∀ j : Nat, j % 4 = 3 →
    (embedLoop ps bs).getD j 0 = ps.getD j 0 := by
  induction ps, bs using embedLoop.induct with
  | case1 ps => intro _ _ _; simp [embedLoop]
  | case2 r g b a rest b1 b2 b3 more ih =>
      intro h4 j hj
      have h4' : rest.length % 4 = 0 := by simp at h4; omega
      by_cases hlt : j < 4
      · have h3 : j = 3 := by omega
        subst h3; rfl
      · obtain ⟨j', rfl⟩ : ∃ j', j = j' + 4 := ⟨j - 4, by omega⟩
        have hj' : j' % 4 = 3 := by omega
        show (embedLoop rest more).getD j' 0 = rest.getD j' 0
        exact ih h4' j' hj'
  | case3 r g b a rest b1 b2 =>
      intro _ j hj
      by_cases hlt : j < 4
      · have h3 : j = 3 := by omega
        subst h3; rfl
      · obtain ⟨j', rfl⟩ : ∃ j', j = j' + 4 := ⟨j - 4, by omega⟩
        rfl
  | case4 r g b a rest b1 =>
      intro _ j hj
      by_cases hlt : j < 4
      · have h3 : j = 3 := by omega
        subst h3; rfl
      · obtain ⟨j', rfl⟩ : ∃ j', j = j' + 4 := ⟨j - 4, by omega⟩
        rfl
  | case5 r g b b1 b2 b3 tail => intro h4; simp at h4
  | case6 r g b b1 b2 => intro h4; simp at h4
  | case7 r g b b1 => intro h4; simp at h4
  | case8 r g b1 b2 tail => intro h4; simp at h4
  | case9 r g b1 => intro h4; simp at h4
  | case10 r b1 tail => intro h4; simp at h4
  | case11 x hx =>
      intro _ j _
      rcases x with _ | ⟨xb, xtail⟩ <;> rfl

theorem embedLoop_getD_beyond (ps : List Nat) (bs : List Bool) :
    ps.length % 4 = 0 → ∀ j : Nat, bs.length ≤ 3 * (j / 4) →
    (embedLoop ps bs).getD j 0 = ps.getD j 0 := by
  induction ps, bs using embedLoop.induct with
  | case1 ps => intro _ _ _; simp [embedLoop]
  | case2 r g b a rest b1 b2 b3 more ih =>
      intro h4 j hble
      have h4' : rest.length % 4 = 0 := by simp at h4; omega
      simp only [List.length_cons] at hble
      obtain ⟨j', rfl⟩ : ∃ j', j = j' + 4 := ⟨j - 4, by omega⟩
      have hble' : more.length ≤ 3 * (j' / 4) := by omega
      show (embedLoop rest more).getD j' 0 = rest.getD j' 0
      exact ih h4' j' hble'
  | case3 r g b a rest b1 b2 =>
      intro _ j hble
      simp only [List.length_cons, List.length_nil] at hble
      obtain ⟨j', rfl⟩ : ∃ j', j = j' + 4 := ⟨j - 4, by omega⟩
      rfl
  | case4 r g b a rest b1 =>
      intro _ j hble
      simp only [List.length_cons, List.length_nil] at hble
      obtain ⟨j', rfl⟩ : ∃ j', j = j' + 4 := ⟨j - 4, by omega⟩
      rfl
  | case5 r g b b1 b2 b3 tail => intro h4; simp at h4
  | case6 r g b b1 b2 => intro h4; simp at h4
  | case7 r g b b1 => intro h4; simp at h4
  | case8 r g b1 b2 tail => intro h4; simp at h4
  | case9 r g b1 => intro h4; simp at h4
  | case10 r b1 tail => intro h4; simp at h4
  | case11 x hx =>
      intro _ j _
      rcases x with _ | ⟨xb, xtail⟩ <;> rfl

theorem embedLoop_getD_div_two (ps : List Nat) (bs : List Bool) :
    (∀ p ∈ ps, p < 256) → ∀ j : Nat,
    (embedLoop ps bs).getD j 0 / 2 = ps.getD j 0 / 2 := by
  induction ps, bs using embedLoop.induct with
  | case1 ps => intro _ _; simp [embedLoop]
  | case2 r g b a rest b1 b2 b3 more ih =>
      intro hmem j
      by_cases hlt : j < 4
      · have hj : j = 0 ∨ j = 1 ∨ j = 2 ∨ j = 3 := by omega
        rcases hj with rfl | rfl | rfl | rfl
        · exact setLSB_div_two r (hmem r (by simp)) b1
        · exact setLSB_div_two g (hmem g (by simp)) b2
        · exact setLSB_div_two b (hmem b (by simp)) b3
        · rfl
      · obtain ⟨j', rfl⟩ : ∃ j', j = j' + 4 := ⟨j - 4, by omega⟩
        show (embedLoop rest more).getD j' 0 / 2 = rest.getD j' 0 / 2
        exact ih (fun p hp => hmem p (by simp [hp])) j'
  | case3 r g b a rest b1 b2 =>
      intro hmem j
      by_cases hlt : j < 4
      · have hj : j = 0 ∨ j = 1 ∨ j = 2 ∨ j = 3 := by omega
        rcases hj with rfl | rfl | rfl | rfl
        · exact setLSB_div_two r (hmem r (by simp)) b1
        · exact setLSB_div_two g (hmem g (by simp)) b2
        · rfl
        · rfl
      · obtain ⟨j', rfl⟩ : ∃ j', j = j' + 4 := ⟨j - 4, by omega⟩
        rfl
  | case4 r g b a rest b1 =>
      intro hmem j
      by_cases hlt : j < 4
      · have hj : j = 0 ∨ j = 1 ∨ j = 2 ∨ j = 3 := by omega
        rcases hj with rfl | rfl | rfl | rfl
        · exact setLSB_div_two r (hmem r (by simp)) b1
        · rfl
        · rfl
        · rfl
      · obtain ⟨j', rfl⟩ : ∃ j', j = j' + 4 := ⟨j - 4, by omega⟩
        rfl
  | case5 r g b b1 b2 b3 tail =>
      intro hmem j
      by_cases hlt : j < 3
      · have hj : j = 0 ∨ j = 1 ∨ j = 2 := by omega
        rcases hj with rfl | rfl | rfl
        · exact setLSB_div_two r (hmem r (by simp)) b1
        · exact setLSB_div_two g (hmem g (by simp)) b2
        · exact setLSB_div_two b (hmem b (by simp)) b3
      · obtain ⟨j', rfl⟩ : ∃ j', j = j' + 3 := ⟨j - 3, by omega⟩
        rfl
  | case6 r g b b1 b2 =>
      intro hmem j
      by_cases hlt : j < 3
      · have hj : j = 0 ∨ j = 1 ∨ j = 2 := by omega
        rcases hj with rfl | rfl | rfl
        · exact setLSB_div_two r (hmem r (by simp)) b1
        · exact setLSB_div_two g (hmem g (by simp)) b2
        · rfl
      · obtain ⟨j', rfl⟩ : ∃ j', j = j' + 3 := ⟨j - 3, by omega⟩
        rfl
  | case7 r g b b1 =>
      intro hmem j
      by_cases hlt : j < 3
      · have hj : j = 0 ∨ j = 1 ∨ j = 2 := by omega
        rcases hj with rfl | rfl | rfl
        · exact setLSB_div_two r (hmem r (by simp)) b1
        · rfl
        · rfl
      · obtain ⟨j', rfl⟩ : ∃ j', j = j' + 3 := ⟨j - 3, by omega⟩
        rfl
  | case8 r g b1 b2 tail =>
      intro hmem j
      by_cases hlt : j < 2
      · have hj : j = 0 ∨ j = 1 := by omega
        rcases hj with rfl | rfl
        · exact setLSB_div_two r (hmem r (by simp)) b1
        · exact setLSB_div_two g (hmem g (by simp)) b2
      · obtain ⟨j', rfl⟩ : ∃ j', j = j' + 2 := ⟨j - 2, by omega⟩
        rfl
  | case9 r g b1 =>
      intro hmem j
      by_cases hlt : j < 2
      · have hj : j = 0 ∨ j = 1 := by omega
        rcases hj with rfl | rfl
        · exact setLSB_div_two r (hmem r (by simp)) b1
        · rfl
      · obtain ⟨j', rfl⟩ : ∃ j', j = j' + 2 := ⟨j - 2, by omega⟩
        rfl
  | case10 r b1 tail =>
      intro hmem j
      by_cases hlt : j < 1
      · have hj : j = 0 := by omega
        subst hj
        exact setLSB_div_two r (hmem r (by simp)) b1
      · obtain ⟨j', rfl⟩ : ∃ j', j = j' + 1 := ⟨j - 1, by omega⟩
        rfl
  | case11 x hx =>
      intro _ j
      rcases x with _ | ⟨xb, xtail⟩ <;> rfl

theorem embedLoop_getD_lsb (ps : List Nat) (bs : List Bool) :
    ps.length % 4 = 0 → ∀ j : Nat, j < ps.length → j % 4 < 3 →
    (j / 4) * 3 + j % 4 < bs.length →
    ((embedLoop ps bs).getD j 0).testBit 0 = bs.getD ((j / 4) * 3 + j % 4) false := by
  induction ps, bs using embedLoop.induct with
  | case1 ps => intro _ j _ _ hslot; simp at hslot
  | case2 r g b a rest b1 b2 b3 more ih =>
      intro h4 j hj hj4 hslot
      have h4' : rest.length % 4 = 0 := by simp at h4; omega
      by_cases hlt : j < 4
      · have hj3 : j = 0 ∨ j = 1 ∨ j = 2 := by omega
        rcases hj3 with rfl | rfl | rfl
        · exact setLSB_testBit_zero r b1
        · exact setLSB_testBit_zero g b2
        · exact setLSB_testBit_zero b b3
      · obtain ⟨j', rfl⟩ : ∃ j', j = j' + 4 := ⟨j - 4, by omega⟩
        have hjl : j' < rest.length := by simp at hj; omega
        have hj4' : j' % 4 < 3 := by omega
        have hslot' : (j' / 4) * 3 + j' % 4 < more.length := by
          simp only [List.length_cons] at hslot
          omega
        have hseq : (j' + 4) / 4 * 3 + (j' + 4) % 4 = (j' / 4 * 3 + j' % 4) + 3 := by omega
        rw [hseq]
        show ((embedLoop rest more).getD j' 0).testBit 0 =
          more.getD (j' / 4 * 3 + j' % 4) false
        exact ih h4' j' hjl hj4' hslot'
  | case3 r g b a rest b1 b2 =>
      intro _ j hj hj4 hslot
      simp only [List.length_cons, List.length_nil] at hslot
      have hj01 : j = 0 ∨ j = 1 := by omega
      rcases hj01 with rfl | rfl
      · exact setLSB_testBit_zero r b1
      · exact setLSB_testBit_zero g b2
  | case4 r g b a rest b1 =>
      intro _ j hj hj4 hslot
      simp only [List.length_cons, List.length_nil] at hslot
      have hj0 : j = 0 := by omega
      subst hj0
      exact setLSB_testBit_zero r b1
  | case5 r g b b1 b2 b3 tail => intro h4; simp at h4
  | case6 r g b b1 b2 => intro h4; simp at h4
  | case7 r g b b1 => intro h4; simp at h4
  | case8 r g b1 b2 tail => intro h4; simp at h4
  | case9 r g b1 => intro h4; simp at h4
  | case10 r b1 tail => intro h4; simp at h4
  | case11 x hx => intro _ j hj; simp at hj

theorem getChunk (arr pre mid post : List Nat) (n m : Nat)
    (harr : arr = pre ++ (mid ++ post)) (hn : n = pre.length) (hm : m = mid.length) :
    (arr.drop n).take m = mid := by
  subst harr hn hm
  rw [List.drop_left' rfl, List.take_left' rfl]

theorem extract_embed_allBytes (pixels data : List Nat)
    (h4 : pixels.length % 4 = 0) (hmin : 1024 ≤ pixels.length)
    (hlen : data.length = 96) (hbound : ∀ x ∈ data, x < 256) :
    extractAllBytes (embedLoop pixels (bytesToBits data)) = data := by
  have hbits : (bytesToBits data).length = 768 := by
    rw [bytesToBits_length, hlen]
  have hcap : (bytesToBits data).length ≤ 3 * (pixels.length / 4) := by
    rw [hbits]; omega
  have htake := lsbStream_embedLoop pixels (bytesToBits data) h4 hcap
  rw [hbits] at htake
  unfold extractAllBytes
  rw [show (4 + 92) * 8 = 768 from by norm_num, htake, padBitsTo, hbits]
  simp only [Nat.sub_self, List.replicate_zero, List.append_nil]
  exact bitsToBytes_bytesToBits data hbound

theorem assembleData_mem_lt (salt iv hmac keyBytes : List Nat)
    (hs : salt.length = 16) (hi : iv.length = 12)
    (hk : keyBytes.length = 32) (hh : hmac.length = 32)
    (hsb : ∀ x ∈ salt, x < 256) (hib : ∀ x ∈ iv, x < 256)
    (hkb : ∀ x ∈ keyBytes, x < 256) (hhb : ∀ x ∈ hmac, x < 256) :
    ∀ x ∈ assembleData salt iv hmac keyBytes, x < 256 := by
  rw [assembleData_eq salt iv hmac keyBytes hs hi hk hh]
  intro x hx
  simp only [List.mem_append, List.mem_cons] at hx
  rcases hx with (rfl | rfl | rfl | rfl | h) | h | h | h | h
  · norm_num
  · norm_num
  · norm_num
  · norm_num
  · simp at h
  · exact hsb x h
  · exact hib x h
  · exact hkb x h
  · exact hhb x h

/-- C2: for every 96-byte payload (16-byte salt, 12-byte iv, 32-byte key,
32-byte mac behind the 4-byte header) and every RGBA pixel buffer with at
least `minPixels` = 256 pixels, extracting immediately after embedding
returns salt, iv, keyBytes and hmac byte-for-byte identical to the embedded
values, regardless of the buffer's original pixel contents. -/
theorem claim2_codec_roundtrip (pixels salt iv hmac keyBytes : List Nat) (npix : Nat)
    (hpix : pixels.length = 4 * npix) (hmin : 256 ≤ npix)
    (hs : salt.length = 16) (hi : iv.length = 12)
    (hk : keyBytes.length = 32) (hh : hmac.length = 32)
    (hsb : ∀ x ∈ salt, x < 256) (hib : ∀ x ∈ iv, x < 256)
    (hkb : ∀ x ∈ keyBytes, x < 256) (hhb : ∀ x ∈ hmac, x < 256) :
    (embedDataInImage pixels salt iv hmac keyBytes).error = none ∧
    extractDataFromImage (embedDataInImage pixels salt iv hmac keyBytes).pixels =
      Except.ok ⟨salt, iv, keyBytes, hmac⟩ := by
  have hdlen := assembleData_length salt iv hmac keyBytes hs hi hk hh
  have hdeq := assembleData_eq salt iv hmac keyBytes hs hi hk hh
  have hbound := assembleData_mem_lt salt iv hmac keyBytes hs hi hk hh hsb hib hkb hhb
  have hcond : ¬ (pixels.length / 4 < (assembleData salt iv hmac keyBytes).length * 8 / 3) := by
    rw [hdlen, hpix]
    omega
  have hres : embedDataInImage pixels salt iv hmac keyBytes =
      ⟨embedLoop pixels (bytesToBits (assembleData salt iv hmac keyBytes)), none⟩ := by
    simp only [embedDataInImage]
    rw [if_neg hcond]
  refine ⟨by rw [hres], ?_⟩
  rw [hres]
  have hAB : extractAllBytes (embedLoop pixels (bytesToBits (assembleData salt iv hmac keyBytes))) =
      assembleData salt iv hmac keyBytes :=
    extract_embed_allBytes pixels _ (by omega) (by omega) hdlen hbound
  simp only [extractDataFromImage]
  rw [hAB]
  have h92 : bytesToNumber ((assembleData salt iv hmac keyBytes).take 4) = 92 := by
    rw [hdeq, List.take_left' (by rfl)]
    decide
  rw [if_neg (by rw [h92]; simp)]
  congr 1
  have e1 : ((assembleData salt iv hmac keyBytes).drop 4).take 16 = salt :=
    getChunk _ [0, 0, 0, 92] salt (iv ++ (keyBytes ++ hmac)) 4 16 hdeq rfl hs.symm
  have e2 : ((assembleData salt iv hmac keyBytes).drop 20).take 12 = iv :=
    getChunk _ ([0, 0, 0, 92] ++ salt) iv (keyBytes ++ hmac) 20 12
      (by rw [hdeq]; simp) (by simp [hs]) hi.symm
  have e3 : ((assembleData salt iv hmac keyBytes).drop 32).take 32 = keyBytes :=
    getChunk _ (([0, 0, 0, 92] ++ salt) ++ iv) keyBytes hmac 32 32
      (by rw [hdeq]; simp) (by simp [hs, hi]) hk.symm
  have e4 : ((assembleData salt iv hmac keyBytes).drop 64).take 32 = hmac :=
    getChunk _ ((([0, 0, 0, 92] ++ salt) ++ iv) ++ keyBytes) hmac [] 64 32
      (by rw [hdeq]; simp) (by simp [hs, hi, hk]) hh.symm
  rw [e1, e2, e3, e4]

/-- C2 witness: a concrete 256-pixel buffer and payload round-trip. -/
theorem claim2_witness :
    extractDataFromImage
      (embedDataInImage (List.replicate 1024 9) (List.replicate 16 1)
        (List.replicate 12 2) (List.replicate 32 4) (List.replicate 32 3)).pixels =
      Except.ok ⟨List.replicate 16 1, List.replicate 12 2,
        List.replicate 32 3, List.replicate 32 4⟩ :=
  (claim2_codec_roundtrip (List.replicate 1024 9) (List.replicate 16 1)
    (List.replicate 12 2) (List.replicate 32 4) (List.replicate 32 3) 256
    (by decide) (by decide) (by decide) (by decide) (by decide) (by decide)
    (by decide) (by decide) (by decide) (by decide)).2

/-- C4: embedding the 96-byte payload into a buffer with exactly
`minPixels` = 256 pixels succeeds; a buffer with 255 or fewer pixels fails
with the capacity error and the pixel bytes are returned unchanged (the
check runs before any write). -/
theorem claim4_capacity_boundary (pixels salt iv hmac keyBytes : List Nat)
    (hs : salt.length = 16) (hi : iv.length = 12)
    (hk : keyBytes.length = 32) (hh : hmac.length = 32) :
    (pixels.length = 4 * 256 → (embedDataInImage pixels salt iv hmac keyBytes).error = none) ∧
    (pixels.length / 4 ≤ 255 →
      embedDataInImage pixels salt iv hmac keyBytes =
        ⟨pixels, some "Failed to embed data in image: Image is too small to embed the encryption data"⟩) := by
  have hdlen := assembleData_length salt iv hmac keyBytes hs hi hk hh
  constructor
  · intro hlen
    simp only [embedDataInImage]
    rw [if_neg (by rw [hdlen, hlen]; omega)]
  · intro hlen
    simp only [embedDataInImage]
    rw [if_pos (by rw [hdlen]; omega)]

/-- C4 witness: boundary instances at 256 and 255 pixels. -/
theorem claim4_witness :
    (embedDataInImage (List.replicate 1024 0) (List.replicate 16 1)
      (List.replicate 12 2) (List.replicate 32 3) (List.replicate 32 4)).error = none ∧
    embedDataInImage (List.replicate 1020 0) (List.replicate 16 1)
      (List.replicate 12 2) (List.replicate 32 3) (List.replicate 32 4) =
      ⟨List.replicate 1020 0, some "Failed to embed data in image: Image is too small to embed the encryption data"⟩ :=
  ⟨(claim4_capacity_boundary (List.replicate 1024 0) (List.replicate 16 1)
      (List.replicate 12 2) (List.replicate 32 3) (List.replicate 32 4)
      (by decide) (by decide) (by decide) (by decide)).1 (by decide),
   (claim4_capacity_boundary (List.replicate 1020 0) (List.replicate 16 1)
      (List.replicate 12 2) (List.replicate 32 3) (List.replicate 32 4)
      (by decide) (by decide) (by decide) (by decide)).2 (by decide)⟩

/-- C5: the payload assembled by embed is exactly 96 bytes laid out as a
4-byte big-endian length field holding the constant 92, then salt (16),
iv (12), raw key bytes (32) and mac (32), in that order with no gaps. -/
theorem claim5_payload_layout (salt iv hmac keyBytes : List Nat)
    (hs : salt.length = 16) (hi : iv.length = 12)
    (hk : keyBytes.length = 32) (hh : hmac.length = 32) :
    assembleData salt iv hmac keyBytes =
      numberToBytes 92 ++ (salt ++ (iv ++ (keyBytes ++ hmac))) ∧
    numberToBytes 92 = [0, 0, 0, 92] ∧
    bytesToNumber (numberToBytes 92) = 92 ∧
    (assembleData salt iv hmac keyBytes).length = 96 := by
  refine ⟨?_, by decide, by decide, assembleData_length salt iv hmac keyBytes hs hi hk hh⟩
  rw [assembleData_eq salt iv hmac keyBytes hs hi hk hh,
    show numberToBytes 92 = [0, 0, 0, 92] from by decide]

/-- C5 witness: concrete payload components. -/
theorem claim5_witness :
    assembleData (List.replicate 16 1) (List.replicate 12 2) (List.replicate 32 4)
      (List.replicate 32 3) =
      numberToBytes 92 ++ (List.replicate 16 1 ++ (List.replicate 12 2 ++
        (List.replicate 32 3 ++ List.replicate 32 4))) :=
  (claim5_payload_layout (List.replicate 16 1) (List.replicate 12 2)
    (List.replicate 32 4) (List.replicate 32 3)
    (by decide) (by decide) (by decide) (by decide)).1

theorem bytesToBits_getD (l : List Nat) : ∀ k : Nat, k < 8 * l.length →
    (bytesToBits l).getD k false = (l.getD (k / 8) 0).testBit (7 - k % 8) := by
  induction l with
  | nil => intro k hk; simp at hk
  | cons b rest ih =>
      intro k hk
      by_cases hlt : k < 8
      · have hcase : k = 0 ∨ k = 1 ∨ k = 2 ∨ k = 3 ∨ k = 4 ∨ k = 5 ∨ k = 6 ∨ k = 7 := by
          omega
        rcases hcase with rfl | rfl | rfl | rfl | rfl | rfl | rfl | rfl <;> rfl
      · obtain ⟨k', rfl⟩ : ∃ k', k = k' + 8 := ⟨k - 8, by omega⟩
        have hk' : k' < 8 * rest.length := by simp at hk; omega
        have hd : (k' + 8) / 8 = k' / 8 + 1 := by omega
        have hm : (k' + 8) % 8 = k' % 8 := by omega
        rw [hd, hm]
        show (bytesToBits rest).getD k' false = (rest.getD (k' / 8) 0).testBit (7 - k' % 8)
        exact ih k' hk'

/-- C3: a successful embed writes only the least-significant bit of the R, G
and B channel bytes of the first 256 pixels, taking pixels in raster order
and payload bits msb-first within each byte; every alpha byte, every bit
above the LSB, and every byte of every pixel beyond the first 256 are
unchanged.  Flat index `j` addresses `imageData.data`; pixel `j/4`,
channel `j%4`; the payload bit written at `j` is bit `7 - slot%8` of payload
byte `slot/8` where `slot = (j/4)*3 + j%4` counts payload bits in raster
order. -/
theorem claim3_embed_frame_effect (pixels salt iv hmac keyBytes : List Nat) (npix : Nat)
    (hpix : pixels.length = 4 * npix) (hmin : 256 ≤ npix)
    (hs : salt.length = 16) (hi : iv.length = 12)
    (hk : keyBytes.length = 32) (hh : hmac.length = 32)
    (hpb : ∀ p ∈ pixels, p < 256) :
    (embedDataInImage pixels salt iv hmac keyBytes).error = none ∧
    (embedDataInImage pixels salt iv hmac keyBytes).pixels.length = pixels.length ∧
    (∀ j : Nat, j % 4 = 3 →
      (embedDataInImage pixels salt iv hmac keyBytes).pixels.getD j 0 = pixels.getD j 0) ∧
    (∀ j : Nat, 1024 ≤ j →
      (embedDataInImage pixels salt iv hmac keyBytes).pixels.getD j 0 = pixels.getD j 0) ∧
    (∀ j : Nat,
      (embedDataInImage pixels salt iv hmac keyBytes).pixels.getD j 0 / 2 =
        pixels.getD j 0 / 2) ∧
    (∀ j : Nat, j < 1024 → j % 4 < 3 →
      ((embedDataInImage pixels salt iv hmac keyBytes).pixels.getD j 0).testBit 0 =
        ((assembleData salt iv hmac keyBytes).getD ((j / 4 * 3 + j % 4) / 8) 0).testBit
          (7 - (j / 4 * 3 + j % 4) % 8)) := by
  have hdlen := assembleData_length salt iv hmac keyBytes hs hi hk hh
  have hbits : (bytesToBits (assembleData salt iv hmac keyBytes)).length = 768 := by
    rw [bytesToBits_length, hdlen]
  have h4 : pixels.length % 4 = 0 := by omega
  have hres : embedDataInImage pixels salt iv hmac keyBytes =
      ⟨embedLoop pixels (bytesToBits (assembleData salt iv hmac keyBytes)), none⟩ := by
    simp only [embedDataInImage]
    rw [if_neg (by rw [hdlen, hpix]; omega)]
  rw [hres]
  refine ⟨rfl, embedLoop_length pixels _, ?_, ?_, ?_, ?_⟩
  · exact fun j hj => embedLoop_getD_alpha pixels _ h4 j hj
  · intro j hj
    exact embedLoop_getD_beyond pixels _ h4 j (by rw [hbits]; omega)
  · exact fun j => embedLoop_getD_div_two pixels _ hpb j
  · intro j hjlt hj4
    have hslot : j / 4 * 3 + j % 4 <
        (bytesToBits (assembleData salt iv hmac keyBytes)).length := by
      rw [hbits]; omega
    rw [embedLoop_getD_lsb pixels _ h4 j (by omega) hj4 hslot]
    exact bytesToBits_getD _ _ (by rw [hdlen]; omega)

/-- C3 witness: concrete evaluation of the frame-effect theorem. -/
theorem claim3_witness :
    (embedDataInImage (List.replicate 1024 9) (List.replicate 16 1)
      (List.replicate 12 2) (List.replicate 32 4) (List.replicate 32 3)).pixels.getD 7 0 =
      (List.replicate 1024 9 : List Nat).getD 7 0 :=
  (claim3_embed_frame_effect (List.replicate 1024 9) (List.replicate 16 1)
    (List.replicate 12 2) (List.replicate 32 4) (List.replicate 32 3) 256
    (by simp) (by decide) (by decide) (by decide) (by decide) (by decide)
    (fun p hp => by rw [List.eq_of_mem_replicate hp]; norm_num)).2.2.1 7 (by decide)

theorem shiftLeft_lor_eq_add (x y k : Nat) (hy : y < 2 ^ k) :
    (x <<< k) ||| y = x * 2 ^ k + y := by
  apply Nat.eq_of_testBit_eq
  intro j
  rw [Nat.testBit_lor, Nat.testBit_shiftLeft, Nat.mul_comm,
    Nat.testBit_mul_pow_two_add x hy j]
  by_cases h : j < k
  · simp [h, Nat.not_le.mpr h]
  · have hyj : y.testBit j = false :=
      Nat.testBit_lt_two_pow
        (lt_of_lt_of_le hy (Nat.pow_le_pow_right (by norm_num) (Nat.le_of_not_lt h)))
    simp [h, Nat.le_of_not_lt h, hyj]

theorem bytesToNumber_four (a b c d : Nat) (hb : b < 256) (hc : c < 256) (hd : d < 256) :
    bytesToNumber [a, b, c, d] =
      toSigned32 (a * 2 ^ 24 + b * 2 ^ 16 + c * 2 ^ 8 + d) := by
  have e1 : (c <<< 8) ||| d = c * 2 ^ 8 + d :=
    shiftLeft_lor_eq_add c d 8 (by omega)
  have e2 : (b <<< 16) ||| (c * 2 ^ 8 + d) = b * 2 ^ 16 + (c * 2 ^ 8 + d) :=
    shiftLeft_lor_eq_add b _ 16 (by omega)
  have e3 : (a <<< 24) ||| (b * 2 ^ 16 + (c * 2 ^ 8 + d)) =
      a * 2 ^ 24 + (b * 2 ^ 16 + (c * 2 ^ 8 + d)) :=
    shiftLeft_lor_eq_add a _ 24 (by omega)
  have harg : a * 2 ^ 24 + (b * 2 ^ 16 + (c * 2 ^ 8 + d)) =
      a * 2 ^ 24 + b * 2 ^ 16 + c * 2 ^ 8 + d := by ring
  simp only [bytesToNumber, List.getD_cons_zero, List.getD_cons_succ]
  rw [Nat.lor_assoc, Nat.lor_assoc, e1, e2, e3, harg]

theorem bytesToNumber_eq_92_iff (a b c d : Nat)
    (ha : a < 256) (hb : b < 256) (hc : c < 256) (hd : d < 256) :
    bytesToNumber [a, b, c, d] = 92 ↔ a = 0 ∧ b = 0 ∧ c = 0 ∧ d = 92 := by
  rw [bytesToNumber_four a b c d hb hc hd]
  unfold toSigned32
  by_cases hlt : a * 2 ^ 24 + b * 2 ^ 16 + c * 2 ^ 8 + d < 2 ^ 31
  · rw [if_pos hlt]
    constructor
    · intro h; omega
    · rintro ⟨rfl, rfl, rfl, rfl⟩; norm_num
  · rw [if_neg hlt]
    constructor
    · intro h; exfalso; omega
    · rintro ⟨rfl, rfl, rfl, rfl⟩; exfalso; apply hlt; norm_num

theorem extractAllBytes_length (pixels : List Nat) :
    (extractAllBytes pixels).length = 96 := by
  unfold extractAllBytes padBitsTo
  rw [bitsToBytes_length]
  simp only [List.length_append, List.length_replicate, List.length_take]
  omega

theorem extractAllBytes_mem_lt (pixels : List Nat) :
    ∀ x ∈ extractAllBytes pixels, x < 256 :=
  bitsToBytes_mem_lt _

/-- C6: extraction decodes the first 4 recovered bytes as a big-endian
integer and fails with the format error if and only if that decoded value
differs from 92 (equivalently: unless the recovered header bytes are exactly
00 00 00 5C); when it equals 92, extraction returns the remaining 92 bytes
split into salt (16), iv (12), keyBytes (32) and hmac (32). -/
theorem claim6_header_check (pixels : List Nat) :
    (bytesToNumber ((extractAllBytes pixels).take 4) ≠ 92 →
      extractDataFromImage pixels =
        Except.error "Failed to extract data from image: Invalid data length - image may not contain valid encryption data") ∧
    (bytesToNumber ((extractAllBytes pixels).take 4) = 92 →
      extractDataFromImage pixels = Except.ok
        ⟨((extractAllBytes pixels).drop 4).take 16,
         ((extractAllBytes pixels).drop 20).take 12,
         ((extractAllBytes pixels).drop 32).take 32,
         ((extractAllBytes pixels).drop 64).take 32⟩) ∧
    (bytesToNumber ((extractAllBytes pixels).take 4) = 92 ↔
      (extractAllBytes pixels).take 4 = [0, 0, 0, 92]) := by
  refine ⟨?_, ?_, ?_⟩
  · intro h
    simp only [extractDataFromImage]
    rw [if_pos (by simpa using h)]
  · intro h
    simp only [extractDataFromImage]
    rw [if_neg (by simp [h])]
  · have hlen := extractAllBytes_length pixels
    have hmem := extractAllBytes_mem_lt pixels
    rcases hE : extractAllBytes pixels with _ | ⟨a, _ | ⟨b, _ | ⟨c, _ | ⟨d, rest⟩⟩⟩⟩ <;>
      rw [hE] at hlen <;> simp only [List.length_cons, List.length_nil] at hlen
    · omega
    · omega
    · omega
    · omega
    · rw [hE] at hmem
      have ha : a < 256 := hmem a (by simp)
      have hb : b < 256 := hmem b (by simp)
      have hc : c < 256 := hmem c (by simp)
      have hd : d < 256 := hmem d (by simp)
      show bytesToNumber [a, b, c, d] = 92 ↔ [a, b, c, d] = [0, 0, 0, 92]
      rw [bytesToNumber_eq_92_iff a b c d ha hb hc hd]
      simp

/-- C6 witness: a buffer with no embedded header fails, and extraction after
a valid embed decodes 92 and succeeds with the four slices. -/
theorem claim6_witness :
    extractDataFromImage (List.replicate 1024 0) =
      Except.error "Failed to extract data from image: Invalid data length - image may not contain valid encryption data" ∧
    extractDataFromImage
      (embedDataInImage (List.replicate 1024 0) (List.replicate 16 1)
        (List.replicate 12 2) (List.replicate 32 4) (List.replicate 32 3)).pixels =
      Except.ok
        ⟨((extractAllBytes (embedDataInImage (List.replicate 1024 0) (List.replicate 16 1)
            (List.replicate 12 2) (List.replicate 32 4) (List.replicate 32 3)).pixels).drop 4).take 16,
         ((extractAllBytes (embedDataInImage (List.replicate 1024 0) (List.replicate 16 1)
            (List.replicate 12 2) (List.replicate 32 4) (List.replicate 32 3)).pixels).drop 20).take 12,
         ((extractAllBytes (embedDataInImage (List.replicate 1024 0) (List.replicate 16 1)
            (List.replicate 12 2) (List.replicate 32 4) (List.replicate 32 3)).pixels).drop 32).take 32,
         ((extractAllBytes (embedDataInImage (List.replicate 1024 0) (List.replicate 16 1)
            (List.replicate 12 2) (List.replicate 32 4) (List.replicate 32 3)).pixels).drop 64).take 32⟩ :=
  ⟨(claim6_header_check (List.replicate 1024 0)).1 (by decide),
   (claim6_header_check (embedDataInImage (List.replicate 1024 0) (List.replicate 16 1)
      (List.replicate 12 2) (List.replicate 32 4) (List.replicate 32 3)).pixels).2.1
     (by decide)⟩

/-! ## Claims about the cryptographic pipeline -/

/-- C1: for every byte sequence P (including the empty sequence) and every
6-digit PIN string K, encrypting (P, K) and then running the decryption
pipeline on the produced ciphertext with the salt, iv and mac fields of the
produced result and the same PIN K returns exactly P.  The AEAD inverse
property of the Web Crypto primitives is the explicit hypothesis `hinv`;
determinism of the KDF and MAC holds because they are functions. -/
theorem claim1_encrypt_decrypt_roundtrip (prims : CryptoPrimitives)
    (hinv : ∀ p k iv, prims.aeadDecrypt (prims.aeadEncrypt p k iv) k iv = some p)
    (P : List Nat) (K : String) (hK : isSixDigitPIN K = true) (salt iv : List Nat) :
    (decryptFile prims (encryptFile prims P K salt iv).encrypted K
      (encryptFile prims P K salt iv).salt (encryptFile prims P K salt iv).iv
      (encryptFile prims P K salt iv).hmac).1 = Except.ok P := by
  simp only [encryptFile, decryptFile, encryptData, computeHMAC, verifyHMAC,
    deriveKeyFromPIN]
  rw [if_pos (by simp)]
  rw [hinv]

/-- C1 witness: round trip at concrete inputs (empty plaintext included). -/
theorem claim1_witness :
    (decryptFile prims0
      (encryptFile prims0 [] "123456" (List.replicate 16 5) (List.replicate 12 6)).encrypted
      "123456"
      (encryptFile prims0 [] "123456" (List.replicate 16 5) (List.replicate 12 6)).salt
      (encryptFile prims0 [] "123456" (List.replicate 16 5) (List.replicate 12 6)).iv
      (encryptFile prims0 [] "123456" (List.replicate 16 5) (List.replicate 12 6)).hmac).1 =
      Except.ok [] :=
  claim1_encrypt_decrypt_roundtrip prims0 (fun _ _ _ => rfl) [] "123456" (by decide)
    (List.replicate 16 5) (List.replicate 12 6)

/-- C7: in the decryption pipeline the MAC is verified over the ciphertext
(never over the plaintext) before AEAD decryption is attempted, and on a MAC
mismatch the pipeline fails without ever invoking the decryption primitive. -/
theorem claim7_mac_before_decrypt (prims : CryptoPrimitives) (ct : List Nat)
    (pin : String) (salt iv mac : List Nat) :
    (∀ d ok, DecStep.macChecked d ok ∈ (decryptFile prims ct pin salt iv mac).2 → d = ct) ∧
    (∀ c, DecStep.decryptInvoked c ∈ (decryptFile prims ct pin salt iv mac).2 →
      ∃ i j : Nat, i < j ∧
        (decryptFile prims ct pin salt iv mac).2[i]? = some (DecStep.macChecked ct true) ∧
        (decryptFile prims ct pin salt iv mac).2[j]? = some (DecStep.decryptInvoked c)) ∧
    (prims.hmacSHA256 ct (deriveKeyFromPIN prims pin salt) ≠ mac →
      (∃ e, (decryptFile prims ct pin salt iv mac).1 = Except.error e) ∧
      ∀ c, DecStep.decryptInvoked c ∉ (decryptFile prims ct pin salt iv mac).2) := by
  by_cases hv : prims.hmacSHA256 ct (deriveKeyFromPIN prims pin salt) = mac
  · have hres : decryptFile prims ct pin salt iv mac =
        (match prims.aeadDecrypt ct (deriveKeyFromPIN prims pin salt) iv with
          | some pt =>
              (Except.ok pt,
               [DecStep.derivedKey pin salt, DecStep.macChecked ct true,
                DecStep.decryptInvoked ct])
          | none =>
              (Except.error "Failed to decrypt file: Decryption failed - incorrect PIN or corrupted data",
               [DecStep.derivedKey pin salt, DecStep.macChecked ct true,
                DecStep.decryptInvoked ct])) := by
      simp only [decryptFile, verifyHMAC]
      rw [if_pos (by simp [hv])]
    rcases hD : prims.aeadDecrypt ct (deriveKeyFromPIN prims pin salt) iv with _ | pt <;>
      rw [hD] at hres <;>
      refine ⟨?_, ?_, ?_⟩ <;> rw [hres]
    · intro d ok hmem; simpa using (by simpa using hmem : d = ct ∧ ok = true).1
    · intro c hmem
      exact ⟨1, 2, by omega, rfl, by simpa using (by simpa using hmem : c = ct) ▸ rfl⟩
    · intro hne; exact absurd hv hne
    · intro d ok hmem; simpa using (by simpa using hmem : d = ct ∧ ok = true).1
    · intro c hmem
      exact ⟨1, 2, by omega, rfl, by simpa using (by simpa using hmem : c = ct) ▸ rfl⟩
    · intro hne; exact absurd hv hne
  · have hres : decryptFile prims ct pin salt iv mac =
        (Except.error "Failed to decrypt file: HMAC verification failed - data may be corrupted",
         [DecStep.derivedKey pin salt, DecStep.macChecked ct false]) := by
      simp only [decryptFile, verifyHMAC]
      rw [if_neg (by simp [hv])]
    refine ⟨?_, ?_, ?_⟩ <;> rw [hres]
    · intro d ok hmem; simpa using (by simpa using hmem : d = ct ∧ ok = false).1
    · intro c hmem; simp at hmem
    · exact fun _ => ⟨⟨_, rfl⟩, fun c => by simp⟩

/-- C7 witness: a concrete MAC-mismatch run errors and never invokes the
decryption primitive. -/
theorem claim7_witness :
    (∃ e, (decryptFile prims0 [1, 2] "123456" [] [] [9]).1 = Except.error e) ∧
    ∀ c, DecStep.decryptInvoked c ∉ (decryptFile prims0 [1, 2] "123456" [] [] [9]).2 :=
  (claim7_mac_before_decrypt prims0 [1, 2] "123456" [] [] [9]).2.2 (by decide)

/-- C8: all cryptographic failure causes of the decryption pipeline are
indistinguishable to the caller: whatever makes `decryptFile` fail — wrong
PIN, corrupted or tampered ciphertext or image (MAC mismatch or AEAD tag
mismatch) — the message shown to the caller via `getCryptoErrorMessage` is
one and the same string. -/
theorem claim8_error_collapse (prims : CryptoPrimitives) (ct : List Nat) (pin : String)
    (salt iv mac : List Nat) (e : String)
    (h : (decryptFile prims ct pin salt iv mac).1 = Except.error e) :
    getCryptoErrorMessage e = "Decryption failed - incorrect PIN or corrupted files" := by
  by_cases hv : prims.hmacSHA256 ct (deriveKeyFromPIN prims pin salt) = mac
  · simp only [decryptFile, verifyHMAC] at h
    rw [if_pos (by simp [hv])] at h
    rcases hD : prims.aeadDecrypt ct (deriveKeyFromPIN prims pin salt) iv with _ | pt <;>
      rw [hD] at h <;> simp at h
    rw [← h]
    decide
  · simp only [decryptFile, verifyHMAC] at h
    rw [if_neg (by simp [hv])] at h
    simp at h
    rw [← h]
    decide

/-- C8 witness: the collapsed message at a concrete failing run. -/
theorem claim8_witness :
    getCryptoErrorMessage
      "Failed to decrypt file: HMAC verification failed - data may be corrupted" =
      "Decryption failed - incorrect PIN or corrupted files" :=
  claim8_error_collapse prims0 [1, 2] "123456" [] [] [9] _ (by decide)

theorem validPIN_iff (pin : String) : (validatePIN pin).valid = isSixDigitPIN pin := by
  unfold validatePIN isSixDigitPIN
  split_ifs with h1 h2 h3 h4 <;> simp_all

/-- C9: for every pin that is not exactly 6 ASCII decimal digits, the
derivation stage fails before any key material is computed (its result does
not depend on the key-derivation primitive at all); for every valid 6-digit
pin and 16-byte salt it derives the key by a PBKDF2 call configured with
exactly 100,000 iterations of HMAC-SHA256 producing a 256-bit key. -/
theorem claim9_derive_validation (prims : CryptoPrimitives) (pin : String)
    (salt : List Nat) :
    (isSixDigitPIN pin = false →
      (∃ e, deriveStage prims pin salt = Except.error e) ∧
      ∀ prims' : CryptoPrimitives, deriveStage prims pin salt = deriveStage prims' pin salt) ∧
    (isSixDigitPIN pin = true → salt.length = 16 →
      deriveStage prims pin salt =
        Except.ok (prims.deriveBits 100000 "SHA-256" 256 pin salt)) := by
  constructor
  · intro hbad
    have hv : (validatePIN pin).valid = false := by rw [validPIN_iff, hbad]
    refine ⟨⟨(validatePIN pin).error.getD "", ?_⟩, fun prims' => ?_⟩
    · simp only [deriveStage]
      rw [if_neg (by simp [hv])]
    · simp only [deriveStage]
      rw [if_neg (by simp [hv]), if_neg (by simp [hv])]
  · intro hgood _
    have hv : (validatePIN pin).valid = true := by rw [validPIN_iff, hgood]
    simp only [deriveStage]
    rw [if_pos (by simp [hv])]
    rfl

/-- C9 witness: a malformed pin errors; a valid pin derives with the
configured parameters. -/
theorem claim9_witness :
    (∃ e, deriveStage prims0 "12a456" (List.replicate 16 0) = Except.error e) ∧
    deriveStage prims0 "123456" (List.replicate 16 0) =
      Except.ok (prims0.deriveBits 100000 "SHA-256" 256 "123456" (List.replicate 16 0)) :=
  ⟨((claim9_derive_validation prims0 "12a456" (List.replicate 16 0)).1 (by decide)).1,
   (claim9_derive_validation prims0 "123456" (List.replicate 16 0)).2 (by decide) (by decide)⟩

/-- C10 (exhibit): on the error exit of the encrypt handler the exported raw
key bytes are NOT zero-filled.  Concretely: a valid run whose cover buffer
has only 255 pixels makes the embed throw after the key was exported; the
handler exits through its catch block with the keyBytes buffer still holding
the raw key (here 32 bytes of 7), whereas the success exit (256-pixel cover)
leaves it zero-filled.  This contradicts the spec's requirement that secret
buffers are zeroed on every exit path. -/
theorem claim10_keybytes_not_zeroed_on_error :
    (handleEncryptCore prims0 [1] "123456" (List.replicate 16 5) (List.replicate 12 6)
        (List.replicate 1020 0)).1 =
      Except.error "Failed to embed data in image: Image is too small to embed the encryption data" ∧
    (handleEncryptCore prims0 [1] "123456" (List.replicate 16 5) (List.replicate 12 6)
        (List.replicate 1020 0)).2 = some (List.replicate 32 7) ∧
    (handleEncryptCore prims0 [1] "123456" (List.replicate 16 5) (List.replicate 12 6)
        (List.replicate 1024 0)).2 = some (List.replicate 32 0) ∧
    List.replicate 32 7 ≠ clearSensitiveData (List.replicate 32 7) := by
  refine ⟨by decide, by decide, by decide, by decide⟩

end SecureStego
